import Mathlib

/-!
Verification of `tools/make-tls-ct-logids.py`, the generator of the
Certificate Transparency log-ID table for the TLS dissector.

The script is embedded shallowly: strings are Lean `String`s, bytes are
`Nat`s below 256, the fallible parts (base64 decoding, the source-file
parser) return `Option`/`Except`.  File contents are modelled as the
`String` that would be read from disk; Python's `for line in f` iteration
is modelled by `pyLines`.
-/

namespace CTLog

/-- Begin-of-block marker comment, `HEADER` in the script. -/
def HEADER : String := "/* Generated by tools/make-tls-ct-logids.py\n"

/-- File to be patched, `SOURCE_FILE` in the script. -/
def SOURCE_FILE : String := "epan/dissectors/packet-tls-utils.c"

/-- Maximum elements per line in the value array, `BYTES_PER_LINE` in the script. -/
def BYTES_PER_LINE : Nat := 11

/-- Models Python `s.replace(old, new)` for a single-character `old`:
each occurrence of the character `pat` is replaced by `rep`. -/
def pyReplace1 (pat : Char) (rep : List Char) : List Char → List Char
| [] => []
| c :: rest => (if c = pat then rep else [c]) ++ pyReplace1 pat rep rest

/-- Embedding of `escape_c`: backslashes are doubled first, then double
quotes are backslash-escaped, exactly as the two chained `replace` calls do. -/
def escape_c (s : String) : String :=
  ⟨pyReplace1 '"' ['\\', '"'] (pyReplace1 '\\' ['\\', '\\'] s.data)⟩

/-- Lowercase hexadecimal digit, as produced by Python's `%x` formatting. -/
def hexDigit (n : Nat) : Char := "0123456789abcdef".data.getD n '0'

/-- Embedding of `byteshex`: renders each byte as `0xHH,` (two lowercase hex
digits for bytes below 256, as `%02x` does) and joins the pieces with single
spaces. -/
def byteshex (b : List Nat) : String :=
  String.intercalate " " (b.map (fun x => "0x" ++ String.mk [hexDigit (x / 16), hexDigit (x % 16)] ++ ","))

/-! ### SHA-256

`hashlib.sha256` is a library call: it is embedded by the FIPS 180-4
algorithm itself, over byte lists.  All word arithmetic is `Nat` reduced
modulo `2 ^ 32`. -/

/-- Right rotation of a 32-bit word. -/
def rotr (n x : Nat) : Nat := ((x >>> n) ||| (x <<< (32 - n))) % 4294967296

/-- Big Sigma-0 of SHA-256. -/
def bsig0 (x : Nat) : Nat := rotr 2 x ^^^ rotr 13 x ^^^ rotr 22 x

/-- Big Sigma-1 of SHA-256. -/
def bsig1 (x : Nat) : Nat := rotr 6 x ^^^ rotr 11 x ^^^ rotr 25 x

/-- Small sigma-0 of SHA-256. -/
def ssig0 (x : Nat) : Nat := rotr 7 x ^^^ rotr 18 x ^^^ (x >>> 3)

/-- Small sigma-1 of SHA-256. -/
def ssig1 (x : Nat) : Nat := rotr 17 x ^^^ rotr 19 x ^^^ (x >>> 10)

/-- Choice function of SHA-256; complement is within 32 bits. -/
def ch (x y z : Nat) : Nat := (x &&& y) ^^^ ((x ^^^ 4294967295) &&& z)

/-- Majority function of SHA-256. -/
def maj (x y z : Nat) : Nat := (x &&& y) ^^^ (x &&& z) ^^^ (y &&& z)

/-- Round constants of SHA-256, rounds 0 to 7. -/
def Kq0 : List Nat :=
  [0x428a2f98, 0x71374491, 0xb5c0fbcf, 0xe9b5dba5,
   0x3956c25b, 0x59f111f1, 0x923f82a4, 0xab1c5ed5]

/-- Round constants of SHA-256, rounds 8 to 15. -/
def Kq1 : List Nat :=
  [0xd807aa98, 0x12835b01, 0x243185be, 0x550c7dc3,
   0x72be5d74, 0x80deb1fe, 0x9bdc06a7, 0xc19bf174]

/-- Round constants of SHA-256, rounds 16 to 23. -/
def Kq2 : List Nat :=
  [0xe49b69c1, 0xefbe4786, 0x0fc19dc6, 0x240ca1cc,
   0x2de92c6f, 0x4a7484aa, 0x5cb0a9dc, 0x76f988da]

/-- Round constants of SHA-256, rounds 24 to 31. -/
def Kq3 : List Nat :=
  [0x983e5152, 0xa831c66d, 0xb00327c8, 0xbf597fc7,
   0xc6e00bf3, 0xd5a79147, 0x06ca6351, 0x14292967]

/-- Round constants of SHA-256, rounds 32 to 39. -/
def Kq4 : List Nat :=
  [0x27b70a85, 0x2e1b2138, 0x4d2c6dfc, 0x53380d13,
   0x650a7354, 0x766a0abb, 0x81c2c92e, 0x92722c85]

/-- Round constants of SHA-256, rounds 40 to 47. -/
def Kq5 : List Nat :=
  [0xa2bfe8a1, 0xa81a664b, 0xc24b8b70, 0xc76c51a3,
   0xd192e819, 0xd6990624, 0xf40e3585, 0x106aa070]

/-- Round constants of SHA-256, rounds 48 to 55. -/
def Kq6 : List Nat :=
  [0x19a4c116, 0x1e376c08, 0x2748774c, 0x34b0bcb5,
   0x391c0cb3, 0x4ed8aa4a, 0x5b9cca4f, 0x682e6ff3]

/-- Round constants of SHA-256, rounds 56 to 63. -/
def Kq7 : List Nat :=
  [0x748f82ee, 0x78a5636f, 0x84c87814, 0x8cc70208,
   0x90befffa, 0xa4506ceb, 0xbef9a3f7, 0xc67178f2]

/-- The 64 round constants of SHA-256. -/
def K : List Nat := Kq0 ++ Kq1 ++ Kq2 ++ Kq3 ++ Kq4 ++ Kq5 ++ Kq6 ++ Kq7

/-- Working variables and hash state of SHA-256. -/
structure SHA8 where
  a : Nat
  b : Nat
  c : Nat
  d : Nat
  e : Nat
  f : Nat
  g : Nat
  h : Nat

/-- Initial hash value of SHA-256. -/
def initH : SHA8 :=
  ⟨0x6a09e667, 0xbb67ae85, 0x3c6ef372, 0xa54ff53a, 0x510e527f, 0x9b05688c, 0x1f83d9ab, 0x5be0cd19⟩

/-- Big-endian decoding of bytes into 32-bit words. -/
def toWords : List Nat → List Nat
| b0 :: b1 :: b2 :: b3 :: rest => (((b0 * 256 + b1) * 256 + b2) * 256 + b3) :: toWords rest
| _ => []

/-- Message-schedule extension: appends `fuel` further words to `ws`. -/
def extendW : Nat → List Nat → List Nat
| 0, ws => ws
| n + 1, ws =>
  extendW n (ws ++ [(ssig1 (ws.getD (ws.length - 2) 0) + ws.getD (ws.length - 7) 0 +
    ssig0 (ws.getD (ws.length - 15) 0) + ws.getD (ws.length - 16) 0) % 4294967296])

/-- One round of the SHA-256 compression loop. -/
def roundStep (w : List Nat) (s : SHA8) (t : Nat) : SHA8 :=
  let T1 := (s.h + bsig1 s.e + ch s.e s.f s.g + K.getD t 0 + w.getD t 0) % 4294967296
  let T2 := (bsig0 s.a + maj s.a s.b s.c) % 4294967296
  ⟨(T1 + T2) % 4294967296, s.a, s.b, s.c, (s.d + T1) % 4294967296, s.e, s.f, s.g⟩

/-- Compression of one 64-byte block into the hash state. -/
def compress (s : SHA8) (block : List Nat) : SHA8 :=
  let w := extendW 48 (toWords block)
  let r := (List.range 64).foldl (roundStep w) s
  ⟨(s.a + r.a) % 4294967296, (s.b + r.b) % 4294967296, (s.c + r.c) % 4294967296,
   (s.d + r.d) % 4294967296, (s.e + r.e) % 4294967296, (s.f + r.f) % 4294967296,
   (s.g + r.g) % 4294967296, (s.h + r.h) % 4294967296⟩

/-- Big-endian 8-byte encoding of the bit length. -/
def lenBE8 (n : Nat) : List Nat :=
  [n / 2 ^ 56 % 256, n / 2 ^ 48 % 256, n / 2 ^ 40 % 256, n / 2 ^ 32 % 256,
   n / 2 ^ 24 % 256, n / 2 ^ 16 % 256, n / 2 ^ 8 % 256, n % 256]

/-- SHA-256 padding: a 0x80 byte, zeros to 56 mod 64, then the bit length. -/
def padMsg (msg : List Nat) : List Nat :=
  msg ++ [128] ++ List.replicate ((119 - msg.length % 64) % 64) 0 ++ lenBE8 (msg.length * 8)

/-- Splitting a padded message into 64-byte blocks (fuel-driven). -/
def toBlocksAux : Nat → List Nat → List (List Nat)
| 0, _ => []
| _, [] => []
| fuel + 1, l => l.take 64 :: toBlocksAux fuel (l.drop 64)

/-- Big-endian 4-byte encoding of a 32-bit word. -/
def wordBE4 (n : Nat) : List Nat := [n / 2 ^ 24 % 256, n / 2 ^ 16 % 256, n / 2 ^ 8 % 256, n % 256]

/-- SHA-256 digest of a byte list, as a list of 32 bytes. -/
def sha256 (msg : List Nat) : List Nat :=
  let padded := padMsg msg
  let fin := (toBlocksAux padded.length padded).foldl compress initH
  wordBE4 fin.a ++ wordBE4 fin.b ++ wordBE4 fin.c ++ wordBE4 fin.d ++
  wordBE4 fin.e ++ wordBE4 fin.f ++ wordBE4 fin.g ++ wordBE4 fin.h

/-! ### Base64 decoding

`base64.b64decode` is a library call; it is embedded by the standard
base64 decoding of alphabet-and-padding input, failing (`none`) elsewhere. -/

/-- The base64 alphabet. -/
def b64chars : String := "ABCDEFGHIJKLMNOPQRSTUVWXYZabcdefghijklmnopqrstuvwxyz0123456789+/"

/-- Index of a character in a character list. -/
def charIndex (c : Char) : List Char → Option Nat
| [] => none
| d :: rest => if d = c then some 0 else (charIndex c rest).map (· + 1)

/-- Value of one base64 alphabet character. -/
def b64val (c : Char) : Option Nat := charIndex c b64chars.data

/-- Decoding of base64 input four characters at a time, with `=` padding
allowed in the final quad. -/
def b64quads : List Char → Option (List Nat)
| [] => some []
| a :: b :: c :: d :: rest =>
  match b64val a, b64val b with
  | some va, some vb =>
    if c = '=' ∧ d = '=' ∧ rest = [] then
      some [va * 4 + vb / 16]
    else
      match b64val c with
      | some vc =>
        if d = '=' ∧ rest = [] then
          some [va * 4 + vb / 16, vb % 16 * 16 + vc / 4]
        else
          match b64val d, b64quads rest with
          | some vd, some tl =>
            some ((va * 4 + vb / 16) :: (vb % 16 * 16 + vc / 4) :: (vc % 4 * 64 + vd) :: tl)
          | _, _ => none
      | none => none
  | _, _ => none
| _ => none

/-- Embedding of `b64decode` on a string. -/
def b64decode (s : String) : Option (List Nat) := b64quads s.data

/-! ### The transformer (`process_json`) -/

/-- One log entry of the upstream JSON; only the fields the script reads. -/
structure LogEntry where
  description : String
  key : String

/-- One operator of the upstream JSON; only the field the script reads. -/
structure Operator where
  logs : List LogEntry

/-- The upstream JSON object; only the field the script reads. -/
structure CTObj where
  operators : List Operator

/-- The flattening `itertools.chain(*[op['logs'] for op in obj['operators']])`. -/
def flatLogs (obj : CTObj) : List LogEntry := (obj.operators.map Operator.logs).flatten

/-- The hex-line loop of `process_json`: one `'          %s\n' % byteshex(...)`
line per `offset in range(0, len(key_id), BYTES_PER_LINE)`. -/
def hexLines (key_id : List Nat) : String :=
  String.join ((List.range' 0 ((key_id.length + BYTES_PER_LINE - 1) / BYTES_PER_LINE) BYTES_PER_LINE).map
    (fun off => "          " ++ byteshex ((key_id.drop off).take BYTES_PER_LINE) ++ "\n"))

/-- The loop body of `process_json` for one log entry: decodes the key,
hashes it and renders the table entry; `none` when base64 decoding fails
(a raised exception in Python). -/
def renderEntry (entry : LogEntry) : Option String :=
  (b64decode entry.key).map fun pubkey_der =>
    let key_id := sha256 pubkey_der
    "    \x7b (const guint8[])\x7b\n" ++ hexLines key_id ++ "      \x7d,\n" ++
    "      " ++ Nat.repr key_id.length ++ ", \"" ++ escape_c entry.description ++ "\" \x7d,\n"

/-- Embedding of `process_json`: the header comment, the `lines +=`
accumulation over all logs, and the sentinel entry with the closing brace. -/
def process_json (obj : CTObj) (lastmod : String) : Option String :=
  let logs := flatLogs obj
  let header := HEADER ++ " * Last-Modified " ++ lastmod ++ ", " ++ Nat.repr logs.length ++
    " entries. */\n" ++ "static const bytes_string ct_logids[] = \x7b\n"
  (logs.foldl (fun acc entry => acc.bind fun s => (renderEntry entry).map fun t => s ++ t)
    (some header)).map fun s => s ++ "    \x7b NULL, 0, NULL \x7d\n" ++ "\x7d;\n"

/-! ### The patcher (`parse_source` and the `--update` branch of `main`) -/

/-- Splits a character list into lines, each keeping its terminating
newline; a final piece without a newline is kept as well.  This is how
Python's `for line in f` iterates a file's content. -/
def linesKeep : List Char → List (List Char)
| [] => []
| c :: rest =>
  if c = '\n' then ['\n'] :: linesKeep rest
  else
    match linesKeep rest with
    | [] => [[c]]
    | l :: ls => (c :: l) :: ls

/-- The lines of a file content, as Python's file iteration yields them. -/
def pyLines (s : String) : List String := (linesKeep s.data).map fun l => ⟨l⟩

/-- Models Python `s.startswith(p)`. -/
def startsWithStr (s p : String) : Bool := p.data.isPrefixOf s.data

/-- State of the `parse_source` scan: the accumulated parts (as a list of
lines each, concatenated on return, mirroring the `+=` accumulation) and
the stage counter. -/
structure PSt where
  pre : List String
  blk : List String
  post : List String
  stage : Nat

/-- One iteration of the `for line in f` loop of `parse_source`. -/
def psStep (st : PSt) (line : String) : PSt :=
  let st := if line = HEADER then { st with stage := 2 } else st
  if st.stage = 1 then { st with pre := st.pre ++ [line] }
  else if st.stage = 2 then
    let st := { st with blk := st.blk ++ [line] }
    if startsWithStr line "\x7d" then { st with stage := 3 } else st
  else { st with post := st.post ++ [line] }

/-- The full scan of `parse_source` over the file's lines. -/
def psRun (ls : List String) : PSt := ls.foldl psStep ⟨[], [], [], 1⟩

/-- Embedding of `parse_source` on a file content: the three-way split,
or the `RuntimeError` message when the scan does not end in stage 3. -/
def parse_source (content : String) : Except String (String × String × String) :=
  let fin := psRun (pyLines content)
  if fin.stage = 3 then .ok (String.join fin.pre, String.join fin.blk, String.join fin.post)
  else .error ("Could not parse file (in stage " ++ Nat.repr fin.stage ++ ")")

/-- Embedding of the `--update` branch of `main`, given the current file
content and the freshly generated block `code`: returns the file content
after the branch together with the printed status message, or the
propagated `parse_source` error. -/
def updateFile (content code : String) : Except String (String × String) :=
  match parse_source content with
  | .error e => .error e
  | .ok (bgn, blk, rest) =>
    if blk = code then .ok (content, "File is up-to-date")
    else .ok (bgn ++ code ++ rest, "Updated " ++ SOURCE_FILE)

/-- Splits a line list at the first line equal to `HEADER`: the lines
before it and the lines after it, or `none` when it does not occur. -/
def splitAtHeader : List String → Option (List String × List String)
| [] => none
| l :: ls =>
  if l = HEADER then some ([], ls)
  else (splitAtHeader ls).map fun p => (l :: p.1, p.2)

/-- Splits a line list at the first line starting with a closing brace:
the lines up to and including it, and the lines after it, or `none` when
no such line occurs. -/
def splitAtBrace : List String → Option (List String × List String)
| [] => none
| l :: ls =>
  if startsWithStr l "\x7d" then some ([l], ls)
  else (splitAtBrace ls).map fun p => (l :: p.1, p.2)

/-- The three-way split as the spec describes it, for comparison with
`parse_source`: the text before the first header line, the block from the
header line through the first subsequent line starting with a closing
brace (inclusive), and the text after it. -/
def parse_source_spec (content : String) : Option (String × String × String) :=
  match splitAtHeader (pyLines content) with
  | none => none
  | some (pre, rest) =>
    match splitAtBrace rest with
    | none => none
    | some (upto, post) => some (String.join pre, HEADER ++ String.join upto, String.join post)

/-! ### Helpers for statements -/

/-- Option-valued map over a list, failing when any element fails; used to
state what the `lines +=` accumulation of `process_json` produces. -/
def mapO (f : α → Option β) : List α → Option (List β)
| [] => some []
| a :: l => (f a).bind fun b => (mapO f l).map fun bl => b :: bl

/-- Per-character description of the `escape_c` rule: a backslash becomes
a double backslash, a double quote becomes a backslash-escaped quote, and
any other character is kept as is. -/
def escChar (c : Char) : List Char :=
  if c = '\\' then ['\\', '\\'] else if c = '"' then ['\\', '"'] else [c]

/-- Sequence of the per-character escapes over a whole character list. -/
def escL : List Char → List Char
| [] => []
| c :: rest => escChar c ++ escL rest

/-- Reversal of the two escapes introduced by `escape_c`: a backslash
followed by a backslash or a double quote yields the second character,
any other character is copied. -/
def unescape_c : List Char → List Char
| [] => []
| [c] => [c]
| c :: d :: rest =>
  if c = '\\' ∧ (d = '\\' ∨ d = '"') then d :: unescape_c rest
  else c :: unescape_c (d :: rest)

end CTLog

deriving instance DecidableEq for Except

namespace CTLog

set_option maxRecDepth 100000

/-! ### String and line lemmas -/

theorem sfoldl_append_eq (l : List String) : ∀ a : String,
    l.foldl (fun r t => r ++ t) a = a ++ String.join l := by
  induction l with
  | nil => intro a; exact (String.append_empty a).symm
  | cons x xs ih =>
    intro a
    have h1 : (x :: xs).foldl (fun r t => r ++ t) a = xs.foldl (fun r t => r ++ t) (a ++ x) := rfl
    have h2 : String.join (x :: xs) = xs.foldl (fun r t => r ++ t) ("" ++ x) := rfl
    rw [h1, ih, h2, ih, String.empty_append, String.append_assoc]

theorem sjoin_cons (s : String) (l : List String) : String.join (s :: l) = s ++ String.join l := by
  have h : String.join (s :: l) = l.foldl (fun r t => r ++ t) ("" ++ s) := rfl
  rw [h, sfoldl_append_eq, String.empty_append]

theorem sjoin_append (l1 l2 : List String) :
    String.join (l1 ++ l2) = String.join l1 ++ String.join l2 := by
  induction l1 with
  | nil =>
    show String.join l2 = String.join [] ++ String.join l2
    rw [show String.join ([] : List String) = "" from rfl, String.empty_append]
  | cons x xs ih => simp only [List.cons_append, sjoin_cons, ih, String.append_assoc]

theorem sjoin_data (l : List String) : (String.join l).data = (l.map String.data).flatten := by
  induction l with
  | nil => rfl
  | cons x xs ih => simp [sjoin_cons, String.data_append, ih]

theorem linesKeep_nil_iff (l : List Char) : linesKeep l = [] ↔ l = [] := by
  cases l with
  | nil => simp [linesKeep]
  | cons c rest =>
    constructor
    · intro h
      exfalso
      by_cases hc : c = '\n'
      · simp [linesKeep, hc] at h
      · simp only [linesKeep, if_neg hc] at h
        cases hlr : linesKeep rest <;> simp [hlr] at h
    · intro h; exact absurd h (by simp)

theorem linesKeep_flatten (l : List Char) : (linesKeep l).flatten = l := by
  induction l with
  | nil => rfl
  | cons c rest ih =>
    by_cases hc : c = '\n'
    · subst hc
      rw [show linesKeep ('\n' :: rest) = ['\n'] :: linesKeep rest from rfl, List.flatten_cons, ih]
      rfl
    · simp only [linesKeep, if_neg hc]
      cases hlr : linesKeep rest with
      | nil =>
        have hr : rest = [] := (linesKeep_nil_iff rest).mp hlr
        subst hr; rfl
      | cons l2 ls =>
        have hfl : (l2 :: ls).flatten = rest := by rw [← hlr]; exact ih
        simp only [List.flatten_cons] at hfl ⊢
        rw [List.cons_append, hfl]

theorem pyLines_join (s : String) : String.join (pyLines s) = s := by
  apply String.ext
  rw [sjoin_data]
  show ((linesKeep s.data).map (fun l => (⟨l⟩ : String)) |>.map String.data).flatten = s.data
  rw [List.map_map]
  have h : (String.data ∘ fun l => (⟨l⟩ : String)) = id := by funext l; rfl
  rw [h, List.map_id, linesKeep_flatten]

/-! ### Escaping lemmas -/

theorem pyReplace1_append (pat : Char) (rep : List Char) (a b : List Char) :
    pyReplace1 pat rep (a ++ b) = pyReplace1 pat rep a ++ pyReplace1 pat rep b := by
  induction a with
  | nil => rfl
  | cons c rest ih => simp [pyReplace1, ih, List.append_assoc]

theorem escape_core (l : List Char) :
    pyReplace1 '"' ['\\', '"'] (pyReplace1 '\\' ['\\', '\\'] l) = escL l := by
  induction l with
  | nil => rfl
  | cons c rest ih =>
    show pyReplace1 '"' ['\\', '"']
        ((if c = '\\' then ['\\', '\\'] else [c]) ++ pyReplace1 '\\' ['\\', '\\'] rest) =
      escChar c ++ escL rest
    rw [pyReplace1_append, ih]
    congr 1
    by_cases h1 : c = '\\'
    · subst h1; rfl
    · rw [if_neg h1]
      by_cases h2 : c = '"'
      · subst h2; rfl
      · show (if c = '"' then ['\\', '"'] else [c]) ++ [] = escChar c
        rw [if_neg h2]
        simp [escChar, h1, h2]

theorem unescape_cons_escaped (d : Char) (hd : d = '\\' ∨ d = '"') (l : List Char) :
    unescape_c ('\\' :: d :: l) = d :: unescape_c l := by
  show (if '\\' = '\\' ∧ (d = '\\' ∨ d = '"') then d :: unescape_c l
    else '\\' :: unescape_c (d :: l)) = d :: unescape_c l
  rw [if_pos ⟨rfl, hd⟩]

theorem unescape_cons_ordinary (c : Char) (hc : c ≠ '\\') (l : List Char) :
    unescape_c (c :: l) = c :: unescape_c l := by
  cases l with
  | nil => rfl
  | cons d l2 =>
    show (if c = '\\' ∧ (d = '\\' ∨ d = '"') then d :: unescape_c l2
      else c :: unescape_c (d :: l2)) = c :: unescape_c (d :: l2)
    rw [if_neg (fun h => hc h.1)]

theorem unescape_escL (l : List Char) : unescape_c (escL l) = l := by
  induction l with
  | nil => rfl
  | cons c rest ih =>
    show unescape_c (escChar c ++ escL rest) = c :: rest
    by_cases h1 : c = '\\'
    · subst h1
      show unescape_c ('\\' :: '\\' :: escL rest) = '\\' :: rest
      rw [unescape_cons_escaped '\\' (Or.inl rfl), ih]
    · by_cases h2 : c = '"'
      · subst h2
        show unescape_c ('\\' :: '"' :: escL rest) = '"' :: rest
        rw [unescape_cons_escaped '"' (Or.inr rfl), ih]
      · have hesc : escChar c = [c] := by simp [escChar, h1, h2]
        rw [hesc]
        show unescape_c (c :: escL rest) = c :: rest
        rw [unescape_cons_ordinary c h1, ih]

theorem escL_id (l : List Char) (h : ∀ c ∈ l, c ≠ '\\' ∧ c ≠ '"') : escL l = l := by
  induction l with
  | nil => rfl
  | cons c rest ih =>
    have hc := h c (List.mem_cons_self c rest)
    show escChar c ++ escL rest = c :: rest
    rw [ih fun d hd => h d (List.mem_cons_of_mem c hd)]
    simp [escChar, hc.1, hc.2]

/-! ### SHA-256 length -/

theorem sha256_length (msg : List Nat) : (sha256 msg).length = 32 := by
  simp [sha256, wordBE4]

/-! ### Accumulation lemmas for `process_json` -/

theorem foldl_render_none (logs : List LogEntry) :
    logs.foldl (fun acc entry => acc.bind fun s => (renderEntry entry).map fun t => s ++ t)
      none = none := by
  induction logs with
  | nil => rfl
  | cons en l ih => simpa using ih

theorem foldl_render (logs : List LogEntry) : ∀ s0 : String,
    logs.foldl (fun acc entry => acc.bind fun s => (renderEntry entry).map fun t => s ++ t)
      (some s0) = (mapO renderEntry logs).map fun es => s0 ++ String.join es := by
  induction logs with
  | nil =>
    intro s0
    show some s0 = some (s0 ++ String.join [])
    rw [show String.join ([] : List String) = "" from rfl, String.append_empty]
  | cons en l ih =>
    intro s0
    simp only [List.foldl_cons]
    cases hre : renderEntry en with
    | none =>
      rw [show ((some s0).bind fun s => (none : Option String).map fun t => s ++ t) = none by simp]
      rw [foldl_render_none]
      simp [mapO, hre]
    | some t =>
      rw [show ((some s0).bind fun s => (some t).map fun t2 => s ++ t2) = some (s0 ++ t) by simp]
      rw [ih (s0 ++ t)]
      simp only [mapO, hre]
      cases hmo : mapO renderEntry l with
      | none => simp [hmo]
      | some es => simp [hmo, sjoin_cons, String.append_assoc]

theorem mapO_length {α β : Type} (f : α → Option β) :
    ∀ {l : List α} {es : List β}, mapO f l = some es → es.length = l.length := by
  intro l
  induction l with
  | nil => intro es h; simp only [mapO, Option.some.injEq] at h; subst h; rfl
  | cons a l ih =>
    intro es h
    simp only [mapO] at h
    cases hf : f a with
    | none => rw [hf] at h; simp at h
    | some b =>
      rw [hf] at h
      cases hm : mapO f l with
      | none => rw [hm] at h; simp at h
      | some bs =>
        rw [hm] at h
        simp at h
        subst h
        simp [ih hm]

/-! ### Scan lemmas for `parse_source` -/

theorem header_not_brace : ¬ startsWithStr HEADER "\x7d" := by decide

theorem brace_ne_header {l : String} (h : startsWithStr l "\x7d") : l ≠ HEADER := by
  intro he
  subst he
  exact header_not_brace h

theorem splitAtHeader_none : ∀ {ls : List String}, splitAtHeader ls = none → HEADER ∉ ls := by
  intro ls
  induction ls with
  | nil => intro _ h; simp at h
  | cons l ls ih =>
    intro h
    by_cases hl : l = HEADER
    · subst hl; simp [splitAtHeader] at h
    · simp only [splitAtHeader, if_neg hl] at h
      cases hsp : splitAtHeader ls with
      | none =>
        intro hm
        rcases List.mem_cons.mp hm with h1 | h2
        · exact hl h1.symm
        · exact ih hsp h2
      | some p => rw [hsp] at h; simp at h

theorem splitAtHeader_some : ∀ {ls pre rest : List String},
    splitAtHeader ls = some (pre, rest) → ls = pre ++ HEADER :: rest ∧ HEADER ∉ pre := by
  intro ls
  induction ls with
  | nil => intro pre rest h; simp [splitAtHeader] at h
  | cons l ls ih =>
    intro pre rest h
    by_cases hl : l = HEADER
    · subst hl
      rw [show splitAtHeader (HEADER :: ls) = some ([], ls) from by simp [splitAtHeader]] at h
      simp only [Option.some.injEq, Prod.mk.injEq] at h
      obtain ⟨h1, h2⟩ := h
      subst h1; subst h2
      exact ⟨rfl, by simp⟩
    · simp only [splitAtHeader, if_neg hl] at h
      cases hsp : splitAtHeader ls with
      | none => rw [hsp] at h; simp at h
      | some p =>
        obtain ⟨pr, rest2⟩ := p
        rw [hsp] at h
        simp only [Option.map_some', Option.some.injEq, Prod.mk.injEq] at h
        obtain ⟨h1, h2⟩ := h
        subst h2
        obtain ⟨hls, hni⟩ := ih hsp
        subst hls
        refine ⟨by rw [← h1]; simp, ?_⟩
        rw [← h1]
        intro hm
        rcases List.mem_cons.mp hm with hx | hx
        · exact hl hx.symm
        · exact hni hx

theorem splitAtBrace_none : ∀ {ls : List String},
    splitAtBrace ls = none → ∀ l ∈ ls, ¬ startsWithStr l "\x7d" := by
  intro ls
  induction ls with
  | nil => intro _ l hm; simp at hm
  | cons x ls ih =>
    intro h l hm
    by_cases hx : startsWithStr x "\x7d"
    · simp [splitAtBrace, hx] at h
    · simp only [splitAtBrace, if_neg hx] at h
      cases hsp : splitAtBrace ls with
      | none =>
        rcases List.mem_cons.mp hm with h1 | h2
        · subst h1; exact hx
        · exact ih hsp l h2
      | some p => rw [hsp] at h; simp at h

theorem splitAtBrace_eq_none : ∀ {ls : List String},
    (∀ l ∈ ls, ¬ startsWithStr l "\x7d") → splitAtBrace ls = none := by
  intro ls
  induction ls with
  | nil => intro _; rfl
  | cons x ls ih =>
    intro h
    have hx : ¬ startsWithStr x "\x7d" := h x (List.mem_cons_self x ls)
    simp only [splitAtBrace, if_neg hx]
    rw [ih fun l hl => h l (List.mem_cons_of_mem x hl)]
    rfl

theorem splitAtBrace_some : ∀ {ls upto post : List String},
    splitAtBrace ls = some (upto, post) →
    ∃ mid br, upto = mid ++ [br] ∧ ls = mid ++ br :: post ∧
      (∀ l ∈ mid, ¬ startsWithStr l "\x7d") ∧ startsWithStr br "\x7d" := by
  intro ls
  induction ls with
  | nil => intro upto post h; simp [splitAtBrace] at h
  | cons x ls ih =>
    intro upto post h
    by_cases hx : startsWithStr x "\x7d"
    · simp only [splitAtBrace, if_pos hx, Option.some.injEq, Prod.mk.injEq] at h
      obtain ⟨h1, h2⟩ := h
      subst h1; subst h2
      exact ⟨[], x, rfl, rfl, by simp, hx⟩
    · simp only [splitAtBrace, if_neg hx] at h
      cases hsp : splitAtBrace ls with
      | none => rw [hsp] at h; simp at h
      | some p =>
        obtain ⟨up2, post2⟩ := p
        rw [hsp] at h
        simp only [Option.map_some', Option.some.injEq, Prod.mk.injEq] at h
        obtain ⟨h1, h2⟩ := h
        subst h2
        obtain ⟨mid, br, hup, hls, hmid, hbr⟩ := ih hsp
        subst hup hls
        refine ⟨x :: mid, br, by rw [← h1]; rfl, rfl, ?_, hbr⟩
        intro l hl
        rcases List.mem_cons.mp hl with h3 | h3
        · subst h3; exact hx
        · exact hmid l h3

theorem no_header_in_rest {ls pre rest : List String}
    (hc : List.count HEADER ls ≤ 1) (hsh : splitAtHeader ls = some (pre, rest)) :
    HEADER ∉ rest := by
  obtain ⟨heq, _⟩ := splitAtHeader_some hsh
  subst heq
  rw [List.count_append, List.count_cons_self] at hc
  have h0 : List.count HEADER rest = 0 := by omega
  exact List.count_eq_zero.mp h0

theorem no_header_in_post {rest upto post : List String}
    (hnr : HEADER ∉ rest) (hsb : splitAtBrace rest = some (upto, post)) :
    HEADER ∉ post := by
  obtain ⟨mid, br, _, hrest, _, _⟩ := splitAtBrace_some hsb
  subst hrest
  intro hm
  exact hnr (by simp [hm])

theorem psStep_stage1 {l : String} (hl : l ≠ HEADER) (p bl po : List String) :
    psStep ⟨p, bl, po, 1⟩ l = ⟨p ++ [l], bl, po, 1⟩ := by
  simp [psStep, hl]

theorem psStep_stage2 {l : String} (hb : ¬ startsWithStr l "\x7d") (p bl po : List String) :
    psStep ⟨p, bl, po, 2⟩ l = ⟨p, bl ++ [l], po, 2⟩ := by
  by_cases hl : l = HEADER
  · subst hl; simp [psStep, hb]
  · simp [psStep, hl, hb]

theorem psStep_stage3 {l : String} (hl : l ≠ HEADER) (p bl po : List String) :
    psStep ⟨p, bl, po, 3⟩ l = ⟨p, bl, po ++ [l], 3⟩ := by
  simp [psStep, hl]

theorem psStep_header (p bl po : List String) (s : Nat) :
    psStep ⟨p, bl, po, s⟩ HEADER = ⟨p, bl ++ [HEADER], po, 2⟩ := by
  simp [psStep, header_not_brace]

theorem psStep_brace {l : String} (hb : startsWithStr l "\x7d") (hl : l ≠ HEADER)
    (p bl po : List String) :
    psStep ⟨p, bl, po, 2⟩ l = ⟨p, bl ++ [l], po, 3⟩ := by
  simp [psStep, hl, hb]

theorem foldl_stage1 : ∀ (ls : List String), HEADER ∉ ls → ∀ p bl po : List String,
    ls.foldl psStep ⟨p, bl, po, 1⟩ = ⟨p ++ ls, bl, po, 1⟩ := by
  intro ls
  induction ls with
  | nil => intro _ p bl po; simp
  | cons l ls ih =>
    intro h p bl po
    have hl : l ≠ HEADER := fun he => h (he ▸ List.mem_cons_self l ls)
    rw [List.foldl_cons, psStep_stage1 hl, ih (fun hm => h (List.mem_cons_of_mem _ hm))]
    simp

theorem foldl_stage2 : ∀ (ls : List String), (∀ l ∈ ls, ¬ startsWithStr l "\x7d") →
    ∀ p bl po : List String,
    ls.foldl psStep ⟨p, bl, po, 2⟩ = ⟨p, bl ++ ls, po, 2⟩ := by
  intro ls
  induction ls with
  | nil => intro _ p bl po; simp
  | cons l ls ih =>
    intro h p bl po
    have hb : ¬ startsWithStr l "\x7d" := h l (List.mem_cons_self l ls)
    rw [List.foldl_cons, psStep_stage2 hb, ih (fun x hm => h x (List.mem_cons_of_mem _ hm))]
    simp

theorem foldl_stage3 : ∀ (ls : List String), HEADER ∉ ls → ∀ p bl po : List String,
    ls.foldl psStep ⟨p, bl, po, 3⟩ = ⟨p, bl, po ++ ls, 3⟩ := by
  intro ls
  induction ls with
  | nil => intro _ p bl po; simp
  | cons l ls ih =>
    intro h p bl po
    have hl : l ≠ HEADER := fun he => h (he ▸ List.mem_cons_self l ls)
    rw [List.foldl_cons, psStep_stage3 hl, ih (fun hm => h (List.mem_cons_of_mem _ hm))]
    simp

theorem psRun_no_header {ls : List String} (h : HEADER ∉ ls) : psRun ls = ⟨ls, [], [], 1⟩ := by
  show ls.foldl psStep ⟨[], [], [], 1⟩ = _
  rw [foldl_stage1 ls h]
  rfl

theorem psRun_no_brace {ls pre rest : List String} (hsh : splitAtHeader ls = some (pre, rest))
    (hnb : ∀ l ∈ rest, ¬ startsWithStr l "\x7d") :
    psRun ls = ⟨pre, HEADER :: rest, [], 2⟩ := by
  obtain ⟨heq, hpre⟩ := splitAtHeader_some hsh
  subst heq
  show (pre ++ HEADER :: rest).foldl psStep ⟨[], [], [], 1⟩ = _
  rw [List.foldl_append, foldl_stage1 pre hpre, List.foldl_cons, psStep_header,
    foldl_stage2 rest hnb]
  simp

theorem psRun_found {ls pre rest upto post : List String}
    (hsh : splitAtHeader ls = some (pre, rest))
    (hsb : splitAtBrace rest = some (upto, post)) (hpost : HEADER ∉ post) :
    psRun ls = ⟨pre, HEADER :: upto, post, 3⟩ := by
  obtain ⟨heq, hpre⟩ := splitAtHeader_some hsh
  obtain ⟨mid, br, hupto, hrest, hmid, hbr⟩ := splitAtBrace_some hsb
  subst heq hupto hrest
  show (pre ++ HEADER :: (mid ++ br :: post)).foldl psStep ⟨[], [], [], 1⟩ = _
  rw [List.foldl_append, foldl_stage1 pre hpre, List.foldl_cons, psStep_header,
    List.foldl_append, foldl_stage2 mid hmid, List.foldl_cons,
    psStep_brace hbr (brace_ne_header hbr), foldl_stage3 post hpost]
  simp

theorem parse_ok_structure {content b blk e : String}
    (hc : List.count HEADER (pyLines content) ≤ 1)
    (hok : parse_source content = .ok (b, blk, e)) :
    ∃ pre rest upto post,
      splitAtHeader (pyLines content) = some (pre, rest) ∧
      splitAtBrace rest = some (upto, post) ∧
      psRun (pyLines content) = ⟨pre, HEADER :: upto, post, 3⟩ ∧
      b = String.join pre ∧ blk = String.join (HEADER :: upto) ∧ e = String.join post := by
  cases hsh : splitAtHeader (pyLines content) with
  | none =>
    have hni : HEADER ∉ pyLines content := splitAtHeader_none hsh
    rw [parse_source, psRun_no_header hni] at hok
    simp at hok
  | some pr =>
    obtain ⟨pre, rest⟩ := pr
    have hnr : HEADER ∉ rest := no_header_in_rest hc hsh
    cases hsb : splitAtBrace rest with
    | none =>
      have hnb := splitAtBrace_none hsb
      rw [parse_source, psRun_no_brace hsh hnb] at hok
      simp at hok
    | some up =>
      obtain ⟨upto, post⟩ := up
      have hpost : HEADER ∉ post := no_header_in_post hnr hsb
      have hrun := psRun_found hsh hsb hpost
      rw [parse_source, hrun] at hok
      simp only [reduceIte, Except.ok.injEq, Prod.mk.injEq] at hok
      obtain ⟨h1, h2, h3⟩ := hok
      exact ⟨pre, rest, upto, post, rfl, hsb, hrun, h1.symm, h2.symm, h3.symm⟩

theorem parse_ok_concat {content b blk e : String}
    (hc : List.count HEADER (pyLines content) ≤ 1)
    (hok : parse_source content = .ok (b, blk, e)) :
    b ++ blk ++ e = content := by
  obtain ⟨pre, rest, upto, post, hsh, hsb, _, hb, hblk, he⟩ := parse_ok_structure hc hok
  obtain ⟨heq, _⟩ := splitAtHeader_some hsh
  obtain ⟨mid, br, hupto, hrest, _, _⟩ := splitAtBrace_some hsb
  subst hb hblk he hupto hrest
  rw [← pyLines_join content, heq]
  rw [show pre ++ HEADER :: (mid ++ br :: post) =
      (pre ++ (HEADER :: (mid ++ [br]))) ++ post by simp]
  rw [sjoin_append, sjoin_append]

/-- Validation of the SHA-256 embedding against the standard test vector
for the three-byte message `abc`. -/
theorem sha256_abc_vector : sha256 [0x61, 0x62, 0x63] =
    [0xba, 0x78, 0x16, 0xbf, 0x8f, 0x01, 0xcf, 0xea, 0x41, 0x41, 0x40, 0xde, 0x5d, 0xae, 0x22, 0x23,
     0xb0, 0x03, 0x61, 0xa3, 0x96, 0x17, 0x7a, 0x9c, 0xb4, 0x10, 0xff, 0x61, 0xf2, 0x00, 0x15, 0xad] := by
  decide

/-! ### The claims -/

/-- Claim C1: for every log entry whose key decodes, the rendered log ID is
exactly the SHA-256 digest of the base64-decoded key, rendered as 32 bytes
(the three rendered chunks concatenate back to the full digest), and the
length field rendered alongside it is the literal `32`. -/
theorem renderEntry_spec (entry : LogEntry) (pk : List Nat)
    (h : b64decode entry.key = some pk) :
    renderEntry entry = some ("    \x7b (const guint8[])\x7b\n" ++ hexLines (sha256 pk) ++
      "      \x7d,\n" ++ "      " ++ "32" ++ ", \"" ++ escape_c entry.description ++
      "\" \x7d,\n") ∧
    (sha256 pk).length = 32 ∧
    (sha256 pk).take 11 ++ ((sha256 pk).drop 11).take 11 ++ (sha256 pk).drop 22 = sha256 pk := by
  refine ⟨?_, sha256_length pk, ?_⟩
  · simp only [renderEntry, h, Option.map_some']
    rw [sha256_length pk]
    rfl
  · rw [show (22 : Nat) = 11 + 11 from rfl, ← List.drop_drop, List.append_assoc,
      List.take_append_drop, List.take_append_drop]

/-- Witness for C1 at the entry with the empty key. -/
theorem renderEntry_spec_witness :
    b64decode "" = some [] ∧ (sha256 ([] : List Nat)).length = 32 :=
  ⟨by decide, (renderEntry_spec ⟨"Test Entry", ""⟩ [] (by decide)).2.1⟩

/-- Claim C2: whenever `process_json` succeeds, the rendered entries are in
bijection with the logs flattened across all operators in JSON order (the
list of rendered entry strings has length equal to the total log count),
and the count recorded in the generated header comment is that same
number. -/
theorem process_json_count (obj : CTObj) (lastmod out : String)
    (h : process_json obj lastmod = some out) :
    ∃ es, mapO renderEntry (flatLogs obj) = some es ∧
      es.length = ((obj.operators.map fun op => op.logs.length).sum) ∧
      out = HEADER ++ " * Last-Modified " ++ lastmod ++ ", " ++
        Nat.repr ((obj.operators.map fun op => op.logs.length).sum) ++ " entries. */\n" ++
        "static const bytes_string ct_logids[] = \x7b\n" ++ String.join es ++
        "    \x7b NULL, 0, NULL \x7d\n" ++ "\x7d;\n" := by
  have hlen : (flatLogs obj).length = (obj.operators.map fun op => op.logs.length).sum := by
    simp only [flatLogs, List.length_flatten, List.map_map]
    rfl
  simp only [process_json] at h
  rw [foldl_render] at h
  cases hmo : mapO renderEntry (flatLogs obj) with
  | none => rw [hmo] at h; simp at h
  | some es =>
    rw [hmo] at h
    simp only [Option.map_some', Option.some.injEq] at h
    refine ⟨es, rfl, (mapO_length renderEntry hmo).trans hlen, ?_⟩
    rw [← h, ← hlen]

/-- Witness for C2 at an input with one operator carrying no logs. -/
theorem process_json_count_witness :
    ∃ es, mapO renderEntry (flatLogs ⟨[Operator.mk []]⟩) = some es ∧
      es.length = (((⟨[Operator.mk []]⟩ : CTObj)).operators.map fun op => op.logs.length).sum ∧
      "/* Generated by tools/make-tls-ct-logids.py\n * Last-Modified L, 0 entries. */\nstatic const bytes_string ct_logids[] = \x7b\n    \x7b NULL, 0, NULL \x7d\n\x7d;\n" =
        HEADER ++ " * Last-Modified " ++ "L" ++ ", " ++
        Nat.repr ((((⟨[Operator.mk []]⟩ : CTObj)).operators.map fun op => op.logs.length).sum) ++
        " entries. */\n" ++ "static const bytes_string ct_logids[] = \x7b\n" ++ String.join es ++
        "    \x7b NULL, 0, NULL \x7d\n" ++ "\x7d;\n" :=
  process_json_count ⟨[Operator.mk []]⟩ "L" _ (by decide)

/-- Claim C3 (amended: the header line occurs at most once in the file):
when the update path rewrites the source file, the result is the prefix,
the new block and the suffix of the three-way split, and prefix and suffix
are byte-for-byte the parts of the original content around the old
block. -/
theorem updateFile_rewrite (content code b blk e : String)
    (hc : List.count HEADER (pyLines content) ≤ 1)
    (hok : parse_source content = .ok (b, blk, e)) (hne : blk ≠ code) :
    updateFile content code = .ok (b ++ code ++ e, "Updated " ++ SOURCE_FILE) ∧
    content = b ++ blk ++ e := by
  refine ⟨?_, (parse_ok_concat hc hok).symm⟩
  simp [updateFile, hok, hne]

/-- Witness for C3 on a minimal parsable file. -/
theorem updateFile_rewrite_witness :
    updateFile (HEADER ++ "\x7d\n") "Z\n" = .ok ("" ++ "Z\n" ++ "", "Updated " ++ SOURCE_FILE) ∧
    HEADER ++ "\x7d\n" = "" ++ (HEADER ++ "\x7d\n") ++ "" :=
  updateFile_rewrite (HEADER ++ "\x7d\n") "Z\n" "" (HEADER ++ "\x7d\n") ""
    (by decide) (by decide) (by decide)

/-- Counterexample to C3 as stated: when the header line reappears after
the block, the rewrite does not preserve the bytes outside the block as
the spec describes them (prefix before the header, suffix after the first
closing-brace line): the trailing second block is dropped and the middle
text is moved. -/
theorem updateFile_rewrite_cex :
    parse_source_spec (HEADER ++ "\x7d\n" ++ "X\n" ++ HEADER ++ "\x7d\n") =
      some ("", HEADER ++ "\x7d\n", "X\n" ++ HEADER ++ "\x7d\n") ∧
    updateFile (HEADER ++ "\x7d\n" ++ "X\n" ++ HEADER ++ "\x7d\n") "N\n" =
      .ok ("N\nX\n", "Updated epan/dissectors/packet-tls-utils.c") ∧
    ("N\nX\n" : String) ≠ "" ++ "N\n" ++ ("X\n" ++ HEADER ++ "\x7d\n") := by
  refine ⟨by decide, by decide, by decide⟩

/-- Claim C4: when the header marker line is absent from the file, or no
line after the first header line starts with a closing brace, the
`parse_source` scan fails with a `RuntimeError` instead of returning a
split. -/
theorem parse_source_fails (content : String)
    (h : HEADER ∉ pyLines content ∨
      ∃ pre rest, splitAtHeader (pyLines content) = some (pre, rest) ∧
        ∀ l ∈ rest, ¬ startsWithStr l "\x7d") :
    ∃ msg, parse_source content = .error msg := by
  cases h with
  | inl hni =>
    exact ⟨_, by rw [parse_source, psRun_no_header hni]; rfl⟩
  | inr h2 =>
    obtain ⟨pre, rest, hsh, hnb⟩ := h2
    exact ⟨_, by rw [parse_source, psRun_no_brace hsh hnb]; rfl⟩

/-- Witness for C4 on a file without the header line. -/
theorem parse_source_fails_witness : ∃ msg, parse_source "abc\n" = .error msg :=
  parse_source_fails "abc\n" (Or.inl (by decide))

/-- Claim C5: when the newly generated block is textually identical to the
block in the file, the update branch leaves the file content unchanged and
reports the up-to-date status. -/
theorem updateFile_up_to_date (content code b blk e : String)
    (hok : parse_source content = .ok (b, blk, e)) (heq : blk = code) :
    updateFile content code = .ok (content, "File is up-to-date") := by
  simp [updateFile, hok, heq]

/-- Witness for C5 on a minimal parsable file. -/
theorem updateFile_up_to_date_witness :
    updateFile (HEADER ++ "\x7d\n") (HEADER ++ "\x7d\n") =
      .ok (HEADER ++ "\x7d\n", "File is up-to-date") :=
  updateFile_up_to_date (HEADER ++ "\x7d\n") (HEADER ++ "\x7d\n") "" (HEADER ++ "\x7d\n") ""
    (by decide) rfl

/-- Claim C6 (amended: the header line occurs at most once among the
file's lines): `parse_source` returns exactly the split the spec
describes, namely the text before the first header line, the block from
the header line through the first subsequent line starting with a closing
brace (inclusive), and the text after it. -/
theorem parse_source_eq_spec (content : String)
    (hc : List.count HEADER (pyLines content) ≤ 1) (b blk e : String) :
    parse_source content = .ok (b, blk, e) ↔ parse_source_spec content = some (b, blk, e) := by
  cases hsh : splitAtHeader (pyLines content) with
  | none =>
    have hni := splitAtHeader_none hsh
    rw [parse_source, psRun_no_header hni]
    simp [parse_source_spec, hsh]
  | some pr =>
    obtain ⟨pre, rest⟩ := pr
    have hnr : HEADER ∉ rest := no_header_in_rest hc hsh
    cases hsb : splitAtBrace rest with
    | none =>
      have hnb := splitAtBrace_none hsb
      rw [parse_source, psRun_no_brace hsh hnb]
      simp [parse_source_spec, hsh, hsb]
    | some up =>
      obtain ⟨upto, post⟩ := up
      have hpost := no_header_in_post hnr hsb
      rw [parse_source, psRun_found hsh hsb hpost]
      simp [parse_source_spec, hsh, hsb, sjoin_cons]

/-- Witness for C6 on a minimal parsable file with a unique header. -/
theorem parse_source_eq_spec_witness :
    parse_source (HEADER ++ "\x7d\n") = .ok ("", HEADER ++ "\x7d\n", "") ↔
      parse_source_spec (HEADER ++ "\x7d\n") = some ("", HEADER ++ "\x7d\n", "") :=
  parse_source_eq_spec (HEADER ++ "\x7d\n") (by decide) "" (HEADER ++ "\x7d\n") ""

/-- Counterexample to C6 as stated: on a file whose header line occurs
again after the block, `parse_source` succeeds but does not return the
spec's split — the returned block runs past the first closing-brace line
and swallows the second header region. -/
theorem parse_source_eq_spec_cex :
    parse_source (HEADER ++ "\x7d\n" ++ "X\n" ++ HEADER ++ "\x7d\n") =
      .ok ("", HEADER ++ "\x7d\n" ++ HEADER ++ "\x7d\n", "X\n") ∧
    parse_source_spec (HEADER ++ "\x7d\n" ++ "X\n" ++ HEADER ++ "\x7d\n") =
      some ("", HEADER ++ "\x7d\n", "X\n" ++ HEADER ++ "\x7d\n") ∧
    ¬ parse_source (HEADER ++ "\x7d\n" ++ "X\n" ++ HEADER ++ "\x7d\n") =
        .ok ("", HEADER ++ "\x7d\n", "X\n" ++ HEADER ++ "\x7d\n") := by
  refine ⟨by decide, by decide, by decide⟩

/-- Claim C7: `escape_c` replaces each backslash with a double backslash
and each double quote with a backslash-escaped quote, treats no other
character specially (it equals the per-character map `escL`), the two
escapes are reversible (`unescape_c` recovers the input), and it is the
identity on strings containing neither character. -/
theorem escape_c_spec (s : String) :
    escape_c s = ⟨escL s.data⟩ ∧ unescape_c (escape_c s).data = s.data ∧
    ('\\' ∉ s.data ∧ '"' ∉ s.data → escape_c s = s) := by
  have hcore : escape_c s = ⟨escL s.data⟩ :=
    congrArg (fun l => (⟨l⟩ : String)) (escape_core s.data)
  refine ⟨hcore, ?_, ?_⟩
  · rw [hcore]
    exact unescape_escL s.data
  · intro hno
    rw [hcore, escL_id s.data fun c hc =>
      ⟨fun he => hno.1 (he ▸ hc), fun he => hno.2 (he ▸ hc)⟩]

/-- Witness for C7 on a string without backslashes and quotes. -/
theorem escape_c_spec_witness : escape_c "abc" = "abc" :=
  (escape_c_spec "abc").2.2 (by decide)

/-- Claim C8: on the minimal input with one operator holding one log with
description `Test Log` and the base64 encoding of the empty byte string as
key, `process_json` renders exactly one entry whose ID bytes are the
SHA-256 digest of the empty byte sequence, with length field 32 and the
description, followed by the `NULL` sentinel line and the closing
brace. -/
theorem process_json_minimal :
    b64decode "" = some [] ∧
    sha256 [] =
      [0xe3, 0xb0, 0xc4, 0x42, 0x98, 0xfc, 0x1c, 0x14, 0x9a, 0xfb, 0xf4, 0xc8, 0x99, 0x6f, 0xb9,
       0x24, 0x27, 0xae, 0x41, 0xe4, 0x64, 0x9b, 0x93, 0x4c, 0xa4, 0x95, 0x99, 0x1b, 0x78, 0x52,
       0xb8, 0x55] ∧
    process_json ⟨[⟨[⟨"Test Log", ""⟩]⟩]⟩ "X" =
      some ("/* Generated by tools/make-tls-ct-logids.py\n * Last-Modified X, 1 entries. */\nstatic const bytes_string ct_logids[] = \x7b\n    \x7b (const guint8[])\x7b\n          0xe3, 0xb0, 0xc4, 0x42, 0x98, 0xfc, 0x1c, 0x14, 0x9a, 0xfb, 0xf4,\n          0xc8, 0x99, 0x6f, 0xb9, 0x24, 0x27, 0xae, 0x41, 0xe4, 0x64, 0x9b,\n          0x93, 0x4c, 0xa4, 0x95, 0x99, 0x1b, 0x78, 0x52, 0xb8, 0x55,\n      \x7d,\n      32, \"Test Log\" \x7d,\n    \x7b NULL, 0, NULL \x7d\n\x7d;\n") := by
  refine ⟨by decide, by decide, by decide⟩

/-- Claim C9: each byte is rendered as `0xHH,` with two lowercase hex
digits, bytes on a line are joined by single spaces, and a 32-byte log ID
is grouped into chunks of 11, 11 and 10 bytes on exactly three lines. -/
theorem hexLines_spec (kid : List Nat) (h : kid.length = 32) :
    hexLines kid =
      "          " ++ byteshex (kid.take 11) ++ "\n" ++
      "          " ++ byteshex ((kid.drop 11).take 11) ++ "\n" ++
      "          " ++ byteshex (kid.drop 22) ++ "\n" ∧
    (kid.take 11).length = 11 ∧ ((kid.drop 11).take 11).length = 11 ∧
    (kid.drop 22).length = 10 ∧
    (∀ b : List Nat, byteshex b = String.intercalate " "
      (b.map fun x => String.mk ['0', 'x', hexDigit (x / 16), hexDigit (x % 16), ','])) ∧
    (∀ n < 16, hexDigit n ∈ "0123456789abcdef".data) := by
  refine ⟨?_, ?_, ?_, ?_, ?_, by decide⟩
  · have h3 : (kid.length + BYTES_PER_LINE - 1) / BYTES_PER_LINE = 3 := by rw [h]; rfl
    simp only [hexLines, h3]
    rw [show List.range' 0 3 BYTES_PER_LINE = [0, 11, 22] from rfl]
    simp only [List.map_cons, List.map_nil, sjoin_cons, show String.join [] = "" from rfl]
    rw [List.drop_zero]
    rw [show (kid.drop 22).take BYTES_PER_LINE = kid.drop 22 from
      List.take_of_length_le (by simp [List.length_drop, h, BYTES_PER_LINE])]
    rw [show BYTES_PER_LINE = 11 from rfl]
    apply String.ext
    simp [String.data_append, List.append_assoc]
  · rw [List.length_take, h]; rfl
  · rw [List.length_take, List.length_drop, h]; rfl
  · rw [List.length_drop, h]
  · intro bs
    rfl

/-- Witness for C9 at the 32-byte list of the first naturals. -/
theorem hexLines_spec_witness :
    (List.range 32).length = 32 ∧
    hexLines (List.range 32) =
      "          " ++ byteshex ((List.range 32).take 11) ++ "\n" ++
      "          " ++ byteshex (((List.range 32).drop 11).take 11) ++ "\n" ++
      "          " ++ byteshex ((List.range 32).drop 22) ++ "\n" :=
  ⟨by decide, (hexLines_spec (List.range 32) (by decide)).1⟩

/-- Claim C10 (amended: the header line occurs at most once among the
file's lines): whenever `parse_source` succeeds, the three returned parts
concatenate to the original content, the block starts with the header
line, and the last accumulated block line starts with a closing brace. -/
theorem parse_source_parts (content b blk e : String)
    (hc : List.count HEADER (pyLines content) ≤ 1)
    (hok : parse_source content = .ok (b, blk, e)) :
    b ++ blk ++ e = content ∧
    HEADER.data <+: blk.data ∧
    blk = String.join (psRun (pyLines content)).blk ∧
    ∃ ll, (psRun (pyLines content)).blk.getLast? = some ll ∧ startsWithStr ll "\x7d" := by
  obtain ⟨pre, rest, upto, post, hsh, hsb, hrun, hb, hblk, he⟩ := parse_ok_structure hc hok
  obtain ⟨mid, br, hupto, hrest, hmid, hbr⟩ := splitAtBrace_some hsb
  refine ⟨parse_ok_concat hc hok, ?_, ?_, ?_⟩
  · rw [hblk, sjoin_cons, String.data_append]
    exact ⟨_, rfl⟩
  · rw [hrun]
    exact hblk
  · rw [hrun]
    subst hupto
    refine ⟨br, ?_, hbr⟩
    show (HEADER :: (mid ++ [br])).getLast? = some br
    rw [show HEADER :: (mid ++ [br]) = (HEADER :: mid) ++ [br] from rfl]
    exact List.getLast?_concat _

/-- Witness for C10 on a minimal parsable file. -/
theorem parse_source_parts_witness :
    "" ++ (HEADER ++ "\x7d\n") ++ "" = HEADER ++ "\x7d\n" ∧
    HEADER.data <+: (HEADER ++ "\x7d\n").data ∧
    HEADER ++ "\x7d\n" = String.join (psRun (pyLines (HEADER ++ "\x7d\n"))).blk ∧
    ∃ ll, (psRun (pyLines (HEADER ++ "\x7d\n"))).blk.getLast? = some ll ∧
      startsWithStr ll "\x7d" :=
  parse_source_parts (HEADER ++ "\x7d\n") "" (HEADER ++ "\x7d\n") "" (by decide) (by decide)

/-- Counterexample to C10 as stated: on a file whose header line occurs
again after the block, `parse_source` succeeds but the three returned
parts do not concatenate back to the original content. -/
theorem parse_source_parts_cex :
    parse_source (HEADER ++ "\x7d\n" ++ "X\n" ++ HEADER ++ "\x7d\n") =
      .ok ("", HEADER ++ "\x7d\n" ++ HEADER ++ "\x7d\n", "X\n") ∧
    "" ++ (HEADER ++ "\x7d\n" ++ HEADER ++ "\x7d\n") ++ "X\n" ≠
      HEADER ++ "\x7d\n" ++ "X\n" ++ HEADER ++ "\x7d\n" := by
  refine ⟨by decide, by decide⟩

end CTLog
